import Mathlib

/-!
Verification of the document search-and-rank pipeline in `src/db.py`
(`MongoCaseRepository`): normalisation, merge/dedup, semantic rerank and
the `search_cases` orchestration, shallowly embedded in Lean.

Python dictionaries are modelled as association lists of string keys and
`Value`s (insertion-ordered, unique keys); Python `None` is `Value.vNull`,
`str(x)` is `pyStr`, truthiness is `pyTruthy`.  The MongoDB collection is
an abstract `Store` whose primary text query can succeed, fail with
`OperationFailure` (unsupported query), or fail with another
`PyMongoError` (fatal).  The sentence-transformer model is an abstract
`EmbeddingModel` whose `encode` may fail (`none`), standing for any
raised exception.  `search_cases` returns, besides its result, the
number of primary and fallback store queries issued and whether the
rerank stage was entered, making the effect claims of the specification
statable.
-/

namespace Db

/-- A Python/BSON value: `None`, booleans, integers, strings, lists and
nested dictionaries. -/
inductive Value where
  | vNull : Value
  | vBool : Bool → Value
  | vInt : Int → Value
  | vStr : String → Value
  | vList : List Value → Value
  | vDoc : List (String × Value) → Value
  deriving Repr

mutual

/-- Boolean equality on `Value` (Python `==` with nested dictionaries
compared structurally). -/
def vbeq : Value → Value → Bool
  | .vNull, .vNull => true
  | .vBool a, .vBool b => a == b
  | .vInt a, .vInt b => a == b
  | .vStr a, .vStr b => a == b
  | .vList a, .vList b => vbeqList a b
  | .vDoc a, .vDoc b => vbeqFields a b
  | _, _ => false

/-- Pointwise `vbeq` on lists of values. -/
def vbeqList : List Value → List Value → Bool
  | [], [] => true
  | a :: as, b :: bs => vbeq a b && vbeqList as bs
  | _, _ => false

/-- Pointwise `vbeq` on key-value field lists. -/
def vbeqFields : List (String × Value) → List (String × Value) → Bool
  | [], [] => true
  | (k1, v1) :: as, (k2, v2) :: bs => k1 == k2 && vbeq v1 v2 && vbeqFields as bs
  | _, _ => false

end

mutual

theorem vbeq_iff : ∀ a b, vbeq a b = true ↔ a = b
  | .vNull, .vNull => by simp [vbeq]
  | .vNull, .vBool _ => by simp [vbeq]
  | .vNull, .vInt _ => by simp [vbeq]
  | .vNull, .vStr _ => by simp [vbeq]
  | .vNull, .vList _ => by simp [vbeq]
  | .vNull, .vDoc _ => by simp [vbeq]
  | .vBool _, .vNull => by simp [vbeq]
  | .vBool _, .vBool _ => by simp [vbeq]
  | .vBool _, .vInt _ => by simp [vbeq]
  | .vBool _, .vStr _ => by simp [vbeq]
  | .vBool _, .vList _ => by simp [vbeq]
  | .vBool _, .vDoc _ => by simp [vbeq]
  | .vInt _, .vNull => by simp [vbeq]
  | .vInt _, .vBool _ => by simp [vbeq]
  | .vInt _, .vInt _ => by simp [vbeq]
  | .vInt _, .vStr _ => by simp [vbeq]
  | .vInt _, .vList _ => by simp [vbeq]
  | .vInt _, .vDoc _ => by simp [vbeq]
  | .vStr _, .vNull => by simp [vbeq]
  | .vStr _, .vBool _ => by simp [vbeq]
  | .vStr _, .vInt _ => by simp [vbeq]
  | .vStr _, .vStr _ => by simp [vbeq]
  | .vStr _, .vList _ => by simp [vbeq]
  | .vStr _, .vDoc _ => by simp [vbeq]
  | .vList _, .vNull => by simp [vbeq]
  | .vList _, .vBool _ => by simp [vbeq]
  | .vList _, .vInt _ => by simp [vbeq]
  | .vList _, .vStr _ => by simp [vbeq]
  | .vList a, .vList b => by simp [vbeq, vbeqList_iff a b]
  | .vList _, .vDoc _ => by simp [vbeq]
  | .vDoc _, .vNull => by simp [vbeq]
  | .vDoc _, .vBool _ => by simp [vbeq]
  | .vDoc _, .vInt _ => by simp [vbeq]
  | .vDoc _, .vStr _ => by simp [vbeq]
  | .vDoc _, .vList _ => by simp [vbeq]
  | .vDoc a, .vDoc b => by simp [vbeq, vbeqFields_iff a b]

theorem vbeqList_iff : ∀ a b, vbeqList a b = true ↔ a = b
  | [], [] => by simp [vbeqList]
  | [], _ :: _ => by simp [vbeqList]
  | _ :: _, [] => by simp [vbeqList]
  | a :: as, b :: bs => by
      simp [vbeqList, vbeq_iff a b, vbeqList_iff as bs]

theorem vbeqFields_iff : ∀ a b, vbeqFields a b = true ↔ a = b
  | [], [] => by simp [vbeqFields]
  | [], _ :: _ => by simp [vbeqFields]
  | _ :: _, [] => by simp [vbeqFields]
  | (_, v1) :: as, (_, v2) :: bs => by
      simp [vbeqFields, vbeq_iff v1 v2, vbeqFields_iff as bs, and_assoc]

end

instance : DecidableEq Value := fun a b => decidable_of_iff (vbeq a b = true) (vbeq_iff a b)

mutual

/-- Python `repr` on values (string escaping elided). -/
def pyRepr : Value → String
  | .vNull => "None"
  | .vBool true => "True"
  | .vBool false => "False"
  | .vInt n => toString n
  | .vStr s => "'" ++ s ++ "'"
  | .vList xs => "[" ++ pyReprList xs ++ "]"
  | .vDoc fs => "\x7b" ++ pyReprFields fs ++ "\x7d"

/-- Comma-separated `pyRepr` of list members. -/
def pyReprList : List Value → String
  | [] => ""
  | [x] => pyRepr x
  | x :: xs => pyRepr x ++ ", " ++ pyReprList xs

/-- Comma-separated `pyRepr` of dictionary fields. -/
def pyReprFields : List (String × Value) → String
  | [] => ""
  | [(k, v)] => "'" ++ k ++ "': " ++ pyRepr v
  | (k, v) :: fs => "'" ++ k ++ "': " ++ pyRepr v ++ ", " ++ pyReprFields fs

end

/-- Python `str(x)`: the string itself for strings, `repr` otherwise. -/
def pyStr : Value → String
  | .vStr s => s
  | v => pyRepr v

/-- Python truthiness of a value. -/
def pyTruthy : Value → Bool
  | .vNull => false
  | .vBool b => b
  | .vInt n => n != 0
  | .vStr s => !(s == "")
  | .vList xs => !xs.isEmpty
  | .vDoc fs => !fs.isEmpty

/-- A Python dictionary (one Mongo document): insertion-ordered fields. -/
abbrev Doc := List (String × Value)

/-- `document[key]` lookup, `none` when the key is absent. -/
def lookupField (document : Doc) (key : String) : Option Value :=
  (document.find? fun kv => kv.1 == key).map fun kv => kv.2

/-- Python `document.get(key)`: the stored value, or `None` when absent. -/
def pyGet (document : Doc) (key : String) : Value :=
  (lookupField document key).getD .vNull

/-- Python `document[key] = v`: replace the value in place when the key
exists, append the pair otherwise. -/
def setField : Doc → String → Value → Doc
  | [], key, v => [(key, v)]
  | kv :: rest, key, v =>
      if kv.1 == key then (key, v) :: rest else kv :: setField rest key v

/-- Python `document.pop(key, None)`: drop the key's field if present. -/
def popField : Doc → String → Doc
  | [], _ => []
  | kv :: rest, key => if kv.1 == key then rest else kv :: popField rest key

/-- Python `==` on dictionaries: same keys and equal value at every key,
insertion order ignored. -/
def docEq (a b : Doc) : Bool :=
  (a.all fun kv => lookupField b kv.1 == some kv.2) &&
  (b.all fun kv => lookupField a kv.1 == some kv.2)

/-- `MongoCaseRepository._normalise_document`: `None` becomes the empty
dict; otherwise a shallow copy with `_id` coerced via `str` when
`document.get("_id")` is not `None`, and `score` popped. -/
def normalise_document : Option Doc → Doc
  | none => []
  | some document =>
    let normalised := document
    let identifier := pyGet normalised "_id"
    let withId :=
      if identifier = Value.vNull then normalised
      else setField normalised "_id" (.vStr (pyStr identifier))
    popField withId "score"

/-- The `_id` of a document when it is a string (`isinstance(…, str)`). -/
def getStrId (document : Doc) : Option String :=
  match pyGet document "_id" with
  | .vStr s => some s
  | _ => none

/-- The fallback loop of `MongoCaseRepository._merge_documents`: walk the
secondary list carrying the accumulated output and the `seen` identifier
set (modelled as a list with membership). -/
def merge_loop : List Doc → List String → List Doc → List Doc × List String
  | merged, seen, [] => (merged, seen)
  | merged, seen, document :: rest =>
    match pyGet document "_id" with
    | .vStr identifier =>
        if seen.contains identifier then merge_loop merged seen rest
        else merge_loop (merged ++ [document]) (identifier :: seen) rest
    | _ =>
        if merged.any fun m => docEq m document then merge_loop merged seen rest
        else merge_loop (merged ++ [document]) seen rest

/-- `MongoCaseRepository._merge_documents`. -/
def merge_documents (primary secondary : List Doc) : List Doc :=
  if secondary.isEmpty then primary
  else (merge_loop primary (primary.filterMap getStrId) secondary).1

/-- The sentence-transformer: `encode` yields a vector (rationals stand
for floats), or `none` when the call raises. -/
structure EmbeddingModel where
  encode : String → Option (List ℚ)

/-- A left-to-right list comprehension whose body may raise: `none` as
soon as one element fails. -/
def mapOpt (f : α → Option β) : List α → Option (List β)
  | [] => some []
  | x :: xs =>
    match f x, mapOpt f xs with
    | some y, some ys => some (y :: ys)
    | _, _ => none

/-- Dot product of two vectors (`document_vectors @ query_vector`, one
row). -/
def dot (a b : List ℚ) : ℚ :=
  ((a.zip b).map fun p => p.1 * p.2).foldl (· + ·) 0

/-- `MongoCaseRepository._document_to_text`: flatten the recognised
fields into one space-joined string.  `document.get("search_metadata",
{}).get("summary")` raises (hence `none`) when `search_metadata` is
present but not a dictionary. -/
def document_to_text (document : Doc) : Option String :=
  let parts1 := ["case_title", "court", "citation"].filterMap fun key =>
    let value := pyGet document key
    if pyTruthy value then some (pyStr value) else none
  let parts2 :=
    match pyGet document "bench" with
    | .vList bench => bench.filterMap fun member =>
        if pyTruthy member then some (pyStr member) else none
    | _ => []
  let parts3 :=
    match pyGet document "issues" with
    | .vList issues => issues.filterMap fun issue =>
        if pyTruthy issue then some (pyStr issue) else none
    | _ => []
  match
    (match lookupField document "search_metadata" with
     | none => some Value.vNull
     | some (.vDoc fields) => some (pyGet fields "summary")
     | some _ => none) with
  | none => none
  | some summary =>
    let parts4 := if pyTruthy summary then [pyStr summary] else []
    let parts5 :=
      match pyGet document "reasoning" with
      | .vDoc fields => fields.filterMap fun kv =>
          if pyTruthy kv.2 then some (pyStr kv.2) else none
      | _ => []
    let parts6 :=
      match pyGet document "outcome" with
      | .vDoc fields =>
        (if pyTruthy (pyGet fields "decision")
         then [pyStr (pyGet fields "decision")] else []) ++
        (match pyGet fields "directions" with
         | .vList directions => directions.filterMap fun direction =>
             if pyTruthy direction then some (pyStr direction) else none
         | _ => [])
      | _ => []
    some (String.intercalate " "
      (parts1 ++ parts2 ++ parts3 ++ parts4 ++ parts5 ++ parts6))

/-- The `try` block of `_semantic_rerank`: obtain the model, the
flattened document texts, the query vector and the document vectors;
`none` when any step raises.  The model argument is `none` when
`_get_embedding_model` itself fails. -/
def rerank_vectors (model? : Option EmbeddingModel) (query : String)
    (documents : List Doc) : Option (List ℚ × List (List ℚ)) :=
  match model? with
  | none => none
  | some model =>
    match mapOpt document_to_text documents with
    | none => none
    | some doc_texts =>
      match model.encode query with
      | none => none
      | some query_vector =>
        match mapOpt model.encode doc_texts with
        | none => none
        | some document_vectors => some (query_vector, document_vectors)

/-- One insertion step of Python's stable `sorted(…, key=fst,
reverse=True)`: place `x` before the first element whose key is not
greater than `x`'s. -/
def insert_desc (x : ℚ × α) : List (ℚ × α) → List (ℚ × α)
  | [] => [x]
  | y :: ys => if y.1 ≤ x.1 then x :: y :: ys else y :: insert_desc x ys

/-- Stable descending sort by the first component, the semantics of
`sorted(zip(scores, documents), key=lambda item: item[0],
reverse=True)`. -/
def sort_desc : List (ℚ × α) → List (ℚ × α)
  | [] => []
  | x :: xs => insert_desc x (sort_desc xs)

/-- `MongoCaseRepository._semantic_rerank`. -/
def semantic_rerank (model? : Option EmbeddingModel) (query : String)
    (documents : List Doc) : List Doc :=
  if documents.length ≤ 1 then documents
  else
    match rerank_vectors model? query documents with
    | none => documents
    | some (query_vector, document_vectors) =>
      let scores := document_vectors.map fun dv => dot dv query_vector
      let ranked := sort_desc (scores.zip documents)
      ranked.map fun item => item.2

/-- Outcome of the primary `$text` query (`collection.find` plus cursor
consumption): raw documents, `OperationFailure` (unsupported query), or
another `PyMongoError` (fatal). -/
inductive PrimaryOutcome where
  | ok : List Doc → PrimaryOutcome
  | opFailure : PrimaryOutcome
  | fatal : PrimaryOutcome

/-- The abstract Mongo collection: the primary text search and the regex
fallback search, as functions of the query. -/
structure Store where
  textSearch : String → PrimaryOutcome
  regexSearch : String → List Doc

/-- The normalised result list of the primary strategy (empty when the
primary query did not complete). -/
def primary_documents (store : Store) (query : String) : List Doc :=
  match store.textSearch query with
  | .ok raw => raw.map fun document => normalise_document (some document)
  | _ => []

/-- `MongoCaseRepository._fallback_search`: regex query, each document
normalised. -/
def fallback_search (store : Store) (query : String) : List Doc :=
  (store.regexSearch query).map fun document => normalise_document (some document)

/-- What one call to `MongoCaseRepository.search_cases` does: its result
(`Except` carries the `RepositoryError` message), how many primary and
fallback store queries it issued, and whether `_semantic_rerank` was
entered. -/
structure SearchTrace where
  result : Except String (List Doc)
  primaryCalls : Nat
  fallbackCalls : Nat
  rerankInvoked : Bool

/-- `MongoCaseRepository.search_cases`, instrumented with store-call
counts.  `limit` is the repository's `limit` field (default 5). -/
def search_cases (limit : Nat) (store : Store) (model? : Option EmbeddingModel)
    (query : String) : SearchTrace :=
  if query = "" then
    ⟨.ok [], 0, 0, false⟩
  else
    match store.textSearch query with
    | .fatal =>
        ⟨.error "Failed to run search query against MongoDB.", 1, 0, false⟩
    | .opFailure =>
        let documents := merge_documents [] (fallback_search store query)
        let reranked := semantic_rerank model? query documents
        ⟨.ok (reranked.take limit), 1, 1, true⟩
    | .ok raw =>
        let documents := raw.map fun document => normalise_document (some document)
        if documents.length < limit then
          let merged := merge_documents documents (fallback_search store query)
          let reranked := semantic_rerank model? query merged
          ⟨.ok (reranked.take limit), 1, 1, true⟩
        else
          let reranked := semantic_rerank model? query documents
          ⟨.ok (reranked.take limit), 1, 0, true⟩

/-- The similarity score `_semantic_rerank` assigns to a document: the
dot product of the document's embedding vector with the query vector
(0 when the document's embedding is unavailable; on the success path
every document has one). -/
def simScore (model : EmbeddingModel) (query_vector : List ℚ) (document : Doc) : ℚ :=
  match (document_to_text document).bind model.encode with
  | some dv => dot dv query_vector
  | none => 0

/-- No two documents of the list carry the same string identifier. -/
abbrev NoDupIds (l : List Doc) : Prop := (l.filterMap getStrId).Nodup

/-- A store whose primary text query always finds one document and
whose regex fallback finds nothing. -/
def oneDocStore : Store where
  textSearch := fun _ => .ok [[("case_title", Value.vStr "x")]]
  regexSearch := fun _ => []

/-- A store whose primary text query always raises a fatal
`PyMongoError`. -/
def fatalStore : Store where
  textSearch := fun _ => .fatal
  regexSearch := fun _ => [[("case_title", Value.vStr "y")]]

/-- A store used to exercise merge and dedup end to end: the primary
query finds two identified documents, the fallback finds one duplicate
of the first and one new document. -/
def mergingStore : Store where
  textSearch := fun _ => .ok [[("_id", Value.vStr "a")], [("_id", Value.vStr "b")]]
  regexSearch := fun _ => [[("_id", Value.vStr "a")], [("_id", Value.vStr "c")]]

/-- A deterministic embedding model: the query `"q"` maps to the unit
vector `[1]`, the flattened text `"A"` to `[2]` and anything else to
`[3]`. -/
def stubModel : EmbeddingModel where
  encode := fun text =>
    some (if text == "q" then [1] else if text == "A" then [2] else [3])

/-! ### Dictionary lemmas -/

theorem lookupField_cons (kv : String × Value) (d : Doc) (k : String) :
    lookupField (kv :: d) k = if kv.1 = k then some kv.2 else lookupField d k := by
  by_cases h : kv.1 = k
  · simp [lookupField, List.find?_cons_of_pos, h]
  · have hb : (kv.1 == k) = false := by simp [h]
    simp [lookupField, List.find?_cons_of_neg, hb, h]

theorem lookupField_setField_self (k : String) (v : Value) :
    ∀ d : Doc, lookupField (setField d k v) k = some v := by
  intro d
  induction d with
  | nil => simp [setField, lookupField]
  | cons kv rest ih =>
      by_cases h : kv.1 = k
      · simp [setField, h, lookupField_cons]
      · have hb : (kv.1 == k) = false := by simp [h]
        simp [setField, hb, lookupField_cons, h, ih]

theorem lookupField_setField_ne (k k' : String) (v : Value) (h : k' ≠ k) :
    ∀ d : Doc, lookupField (setField d k v) k' = lookupField d k' := by
  intro d
  induction d with
  | nil => simp [setField, lookupField_cons, lookupField, Ne.symm h]
  | cons kv rest ih =>
      by_cases hk : kv.1 = k
      · simp [setField, hk, lookupField_cons, Ne.symm h]
      · have hb : (kv.1 == k) = false := by simp [hk]
        simp [setField, hb, lookupField_cons, ih]

theorem lookupField_popField_ne (k k' : String) (h : k' ≠ k) :
    ∀ d : Doc, lookupField (popField d k) k' = lookupField d k' := by
  intro d
  induction d with
  | nil => simp [popField]
  | cons kv rest ih =>
      by_cases hk : kv.1 = k
      · simp [popField, hk, lookupField_cons, Ne.symm h]
      · have hb : (kv.1 == k) = false := by simp [hk]
        simp [popField, hb, lookupField_cons, ih]

theorem lookupField_eq_none_of_not_mem_keys (k : String) :
    ∀ d : Doc, k ∉ d.map Prod.fst → lookupField d k = none := by
  intro d
  induction d with
  | nil => intro _; rfl
  | cons kv rest ih =>
      intro h
      simp only [List.map_cons, List.mem_cons] at h
      push_neg at h
      simp [lookupField_cons, Ne.symm h.1, ih h.2]

theorem lookupField_popField_self (k : String) :
    ∀ d : Doc, (d.map Prod.fst).Nodup → lookupField (popField d k) k = none := by
  intro d
  induction d with
  | nil => intro _; rfl
  | cons kv rest ih =>
      intro h
      simp only [List.map_cons, List.nodup_cons] at h
      by_cases hk : kv.1 = k
      · simpa [popField, hk] using
          lookupField_eq_none_of_not_mem_keys k rest (hk ▸ h.1)
      · have hb : (kv.1 == k) = false := by simp [hk]
        simp [popField, hb, lookupField_cons, hk, ih h.2]

theorem mem_keys_setField (k k' : String) (v : Value) :
    ∀ d : Doc, k' ∈ (setField d k v).map Prod.fst ↔ k' ∈ d.map Prod.fst ∨ k' = k := by
  intro d
  induction d with
  | nil => simp [setField]
  | cons kv rest ih =>
      by_cases hk : kv.1 = k
      · simp [setField, hk]
        tauto
      · have hb : (kv.1 == k) = false := by simp [hk]
        simp [setField, hb, ih]
        tauto

theorem setField_keys_nodup (k : String) (v : Value) :
    ∀ d : Doc, (d.map Prod.fst).Nodup → ((setField d k v).map Prod.fst).Nodup := by
  intro d
  induction d with
  | nil => intro _; simp [setField]
  | cons kv rest ih =>
      intro h
      simp only [List.map_cons, List.nodup_cons] at h
      by_cases hk : kv.1 = k
      · have he : setField (kv :: rest) k v = (k, v) :: rest := by
          simp [setField, hk]
        rw [he]
        simp only [List.map_cons, List.nodup_cons]
        exact ⟨hk ▸ h.1, h.2⟩
      · have hb : (kv.1 == k) = false := by simp [hk]
        have he : setField (kv :: rest) k v = kv :: setField rest k v := by
          simp [setField, hb]
        rw [he]
        simp only [List.map_cons, List.nodup_cons]
        refine ⟨?_, ih h.2⟩
        rw [mem_keys_setField]
        push_neg
        exact ⟨h.1, hk⟩

theorem pyGet_eq_of_lookupField (d : Doc) (k : String) (v : Value)
    (h : lookupField d k = some v) : pyGet d k = v := by
  simp [pyGet, h]

theorem pyGet_eq_vNull_of_lookupField_none (d : Doc) (k : String)
    (h : lookupField d k = none) : pyGet d k = .vNull := by
  simp [pyGet, h]

/-! ### C9: `_normalise_document` -/

/-- C9 (counterexample): the claim says the identifier field is
coerced to its string representation whenever it is *present*; but for
a document whose `_id` field is present with value `None`, the code
leaves it as `None` (the guard is `identifier is not None`), not the
string `str(None) = "None"`. -/
theorem normalise_document_null_id_counterexample :
    normalise_document (some [("_id", Value.vNull)]) = [("_id", Value.vNull)] ∧
    ([("_id", Value.vNull)] : Doc) ≠ [("_id", Value.vStr (pyStr Value.vNull))] := by
  constructor
  · rfl
  · decide

/-- C9 (amended): `_normalise_document` is total; a null input yields
the empty mapping; otherwise the result is a shallow copy in which the
identifier field is replaced by its string representation when it is
present *with a non-null value* (a present-but-null identifier is left
untouched), the transitory `score` field is removed, and every other
field is unchanged. -/
theorem normalise_document_total_spec (d : Doc) (h : (d.map Prod.fst).Nodup) :
    normalise_document none = [] ∧
    (∀ k, k ≠ "_id" → k ≠ "score" →
        lookupField (normalise_document (some d)) k = lookupField d k) ∧
    lookupField (normalise_document (some d)) "score" = none ∧
    (∀ v, lookupField d "_id" = some v → v ≠ Value.vNull →
        lookupField (normalise_document (some d)) "_id" =
          some (.vStr (pyStr v))) ∧
    (lookupField d "_id" = some Value.vNull →
        lookupField (normalise_document (some d)) "_id" = some Value.vNull) ∧
    (lookupField d "_id" = none →
        lookupField (normalise_document (some d)) "_id" = none) := by
  refine ⟨rfl, ?_, ?_, ?_, ?_, ?_⟩
  · intro k hid hscore
    cases hl : lookupField d "_id" with
    | none =>
        have hid0 : pyGet d "_id" = .vNull := pyGet_eq_vNull_of_lookupField_none d _ hl
        simp [normalise_document, hid0, lookupField_popField_ne _ _ hscore]
    | some v =>
        have hid0 : pyGet d "_id" = v := pyGet_eq_of_lookupField d _ v hl
        by_cases hv : v = Value.vNull
        · simp [normalise_document, hid0, hv, lookupField_popField_ne _ _ hscore]
        · simp [normalise_document, hid0, hv,
            lookupField_popField_ne _ _ hscore, lookupField_setField_ne _ _ _ hid]
  · cases hl : lookupField d "_id" with
    | none =>
        have hid0 : pyGet d "_id" = .vNull := pyGet_eq_vNull_of_lookupField_none d _ hl
        simp [normalise_document, hid0, lookupField_popField_self _ _ h]
    | some v =>
        have hid0 : pyGet d "_id" = v := pyGet_eq_of_lookupField d _ v hl
        by_cases hv : v = Value.vNull
        · simp [normalise_document, hid0, hv, lookupField_popField_self _ _ h]
        · simp [normalise_document, hid0, hv,
            lookupField_popField_self _ _ (setField_keys_nodup _ _ _ h)]
  · intro v hl hv
    have hid0 : pyGet d "_id" = v := pyGet_eq_of_lookupField d _ v hl
    have hne : ("_id" : String) ≠ "score" := by decide
    simp [normalise_document, hid0, hv, lookupField_popField_ne _ _ hne,
      lookupField_setField_self]
  · intro hl
    have hid0 : pyGet d "_id" = Value.vNull := pyGet_eq_of_lookupField d _ _ hl
    have hne : ("_id" : String) ≠ "score" := by decide
    simp [normalise_document, hid0, lookupField_popField_ne _ _ hne, hl]
  · intro hl
    have hid0 : pyGet d "_id" = Value.vNull := pyGet_eq_vNull_of_lookupField_none d _ hl
    have hne : ("_id" : String) ≠ "score" := by decide
    simp [normalise_document, hid0, lookupField_popField_ne _ _ hne, hl]

/-- Witness for `normalise_document_total_spec` at a concrete document
with a string identifier, a score field and an unknown extra field. -/
theorem normalise_document_total_spec_witness :
    ((([("_id", Value.vStr "a"), ("x", Value.vInt 1),
        ("score", Value.vInt 2)] : Doc).map Prod.fst).Nodup) ∧
    (normalise_document none = [] ∧
     (∀ k, k ≠ "_id" → k ≠ "score" →
         lookupField (normalise_document (some [("_id", Value.vStr "a"),
           ("x", Value.vInt 1), ("score", Value.vInt 2)])) k =
           lookupField [("_id", Value.vStr "a"), ("x", Value.vInt 1),
             ("score", Value.vInt 2)] k) ∧
     lookupField (normalise_document (some [("_id", Value.vStr "a"),
       ("x", Value.vInt 1), ("score", Value.vInt 2)])) "score" = none ∧
     (∀ v, lookupField [("_id", Value.vStr "a"), ("x", Value.vInt 1),
         ("score", Value.vInt 2)] "_id" = some v → v ≠ Value.vNull →
         lookupField (normalise_document (some [("_id", Value.vStr "a"),
           ("x", Value.vInt 1), ("score", Value.vInt 2)])) "_id" =
           some (.vStr (pyStr v))) ∧
     (lookupField [("_id", Value.vStr "a"), ("x", Value.vInt 1),
         ("score", Value.vInt 2)] "_id" = some Value.vNull →
         lookupField (normalise_document (some [("_id", Value.vStr "a"),
           ("x", Value.vInt 1), ("score", Value.vInt 2)])) "_id" =
           some Value.vNull) ∧
     (lookupField [("_id", Value.vStr "a"), ("x", Value.vInt 1),
         ("score", Value.vInt 2)] "_id" = none →
         lookupField (normalise_document (some [("_id", Value.vStr "a"),
           ("x", Value.vInt 1), ("score", Value.vInt 2)])) "_id" = none)) :=
  ⟨by decide, normalise_document_total_spec _ (by decide)⟩

/-! ### C6: merging with an empty fallback -/

/-- C6: merging any primary list with an empty fallback list returns
exactly the primary list (identity short-circuit). -/
theorem merge_documents_empty_fallback (primary : List Doc) :
    merge_documents primary [] = primary := by
  simp [merge_documents]

/-! ### C2: empty versus whitespace-only queries -/

/-- C2 (counterexample): the guard is `if not query`, which is false
for the whitespace-only query `" "`; `search_cases " "` issues the
primary store query (and here also the fallback one) and returns a
non-empty result rather than short-circuiting to `[]`. -/
theorem search_cases_whitespace_counterexample :
    (search_cases 5 oneDocStore none " ").primaryCalls = 1 ∧
    (search_cases 5 oneDocStore none " ").fallbackCalls = 1 ∧
    (search_cases 5 oneDocStore none " ").result =
      .ok [[("case_title", Value.vStr "x")]] := by
  refine ⟨rfl, rfl, rfl⟩

/-- C2 (amended): only the *empty* query string short-circuits:
`search_cases ""` returns `[]` with no primary query, no fallback query
and no rerank.  A whitespace-only query is not short-circuited and is
sent to the store like any other non-empty string. -/
theorem search_cases_empty_query (limit : Nat) (store : Store)
    (model? : Option EmbeddingModel) :
    search_cases limit store model? "" = ⟨.ok [], 0, 0, false⟩ := rfl

/-! ### C3: fatal primary store errors -/

/-- C3: when the primary query fails with a store-level error other
than `OperationFailure`, `search_cases` propagates `RepositoryError`
and neither the fallback search nor the semantic rerank runs. -/
theorem search_cases_fatal_propagates (limit : Nat) (store : Store)
    (model? : Option EmbeddingModel) (query : String)
    (hq : query ≠ "") (hf : store.textSearch query = .fatal) :
    search_cases limit store model? query =
      ⟨.error "Failed to run search query against MongoDB.", 1, 0, false⟩ := by
  simp [search_cases, hq, hf]

/-- Witness for `search_cases_fatal_propagates` on a concrete store
and query. -/
theorem search_cases_fatal_propagates_witness :
    ("q" ≠ "" ∧ fatalStore.textSearch "q" = .fatal) ∧
    search_cases 5 fatalStore none "q" =
      ⟨.error "Failed to run search query against MongoDB.", 1, 0, false⟩ :=
  ⟨⟨by decide, rfl⟩, search_cases_fatal_propagates 5 fatalStore none "q" (by decide) rfl⟩

/-! ### C4: rerank degrades to the identity on embedding failure -/

/-- C4: whenever the embedding stage of `_semantic_rerank` raises (the
model cannot be obtained, a document cannot be flattened, or `encode`
fails on the query or on any document text), the exception is caught
and the input list is returned unchanged, in the same order. -/
theorem semantic_rerank_failure_identity (model? : Option EmbeddingModel)
    (query : String) (documents : List Doc)
    (hfail : rerank_vectors model? query documents = none) :
    semantic_rerank model? query documents = documents := by
  unfold semantic_rerank
  by_cases hlen : documents.length ≤ 1
  · simp [hlen]
  · simp [hlen, hfail]

/-- Witness for `semantic_rerank_failure_identity`: a two-document list
with an unavailable embedding model. -/
theorem semantic_rerank_failure_identity_witness :
    rerank_vectors none "q" [[("case_title", Value.vStr "A")],
      [("case_title", Value.vStr "B")]] = none ∧
    semantic_rerank none "q" [[("case_title", Value.vStr "A")],
        [("case_title", Value.vStr "B")]] =
      [[("case_title", Value.vStr "A")], [("case_title", Value.vStr "B")]] :=
  ⟨rfl, semantic_rerank_failure_identity none "q" _ rfl⟩

/-! ### Stable descending sort lemmas -/

theorem insert_desc_perm (x : ℚ × α) (l : List (ℚ × α)) :
    List.Perm (insert_desc x l) (x :: l) := by
  induction l with
  | nil => exact .refl _
  | cons y ys ih =>
      by_cases h : y.1 ≤ x.1
      · simp only [insert_desc, if_pos h]
        exact .refl _
      · simp only [insert_desc, if_neg h]
        exact (ih.cons y).trans (List.Perm.swap x y ys)

theorem sort_desc_perm (l : List (ℚ × α)) : List.Perm (sort_desc l) l := by
  induction l with
  | nil => exact .refl _
  | cons x xs ih => exact (insert_desc_perm x (sort_desc xs)).trans (ih.cons x)

theorem insert_desc_sorted (x : ℚ × α) (l : List (ℚ × α))
    (h : l.Pairwise fun a b => b.1 ≤ a.1) :
    (insert_desc x l).Pairwise fun a b => b.1 ≤ a.1 := by
  induction l with
  | nil => simp [insert_desc]
  | cons y ys ih =>
      rcases List.pairwise_cons.mp h with ⟨hy, hys⟩
      by_cases hle : y.1 ≤ x.1
      · simp only [insert_desc, if_pos hle]
        refine List.pairwise_cons.mpr ⟨?_, h⟩
        intro b hb
        rcases List.mem_cons.mp hb with rfl | hb
        · exact hle
        · exact (hy b hb).trans hle
      · simp only [insert_desc, if_neg hle]
        refine List.pairwise_cons.mpr ⟨?_, ih hys⟩
        intro b hb
        rcases List.mem_cons.mp ((insert_desc_perm x ys).mem_iff.mp hb) with rfl | hb
        · exact le_of_not_le hle
        · exact hy b hb

theorem sort_desc_sorted (l : List (ℚ × α)) :
    (sort_desc l).Pairwise fun a b => b.1 ≤ a.1 := by
  induction l with
  | nil => simp [sort_desc]
  | cons x xs ih => exact insert_desc_sorted x (sort_desc xs) ih

theorem insert_desc_filter (s : ℚ) (x : ℚ × α) (l : List (ℚ × α)) :
    (insert_desc x l).filter (fun p => p.1 == s) =
      if x.1 == s then x :: l.filter (fun p => p.1 == s)
      else l.filter (fun p => p.1 == s) := by
  induction l with
  | nil => by_cases h : x.1 == s <;> simp [insert_desc, List.filter, h]
  | cons y ys ih =>
      by_cases hle : y.1 ≤ x.1
      · by_cases hxs : x.1 == s <;>
          simp [insert_desc, if_pos hle, List.filter_cons, hxs]
      · simp only [insert_desc, if_neg hle, List.filter_cons, ih]
        by_cases hxs : x.1 == s
        · have hx : x.1 = s := beq_iff_eq.mp hxs
          have hys : (y.1 == s) = false := by
            refine beq_eq_false_iff_ne.mpr ?_
            intro hy
            exact hle (le_of_eq (hy.trans hx.symm))
          simp [hxs, hys]
        · by_cases hyb : y.1 == s <;> simp [hxs, hyb]

theorem sort_desc_filter (s : ℚ) (l : List (ℚ × α)) :
    (sort_desc l).filter (fun p => p.1 == s) = l.filter (fun p => p.1 == s) := by
  induction l with
  | nil => rfl
  | cons x xs ih =>
      by_cases hxs : x.1 == s <;>
        simp [sort_desc, insert_desc_filter, ih, List.filter_cons, hxs]

/-! ### Rerank lemmas -/

theorem mapOpt_length (f : α → Option β) :
    ∀ l ys, mapOpt f l = some ys → ys.length = l.length := by
  intro l
  induction l with
  | nil => intro ys h; simp [mapOpt] at h; simp [← h]
  | cons x xs ih =>
      intro ys h
      cases hf : f x with
      | none => simp [mapOpt, hf] at h
      | some y =>
          cases hm : mapOpt f xs with
          | none => simp [mapOpt, hf, hm] at h
          | some zs =>
              simp [mapOpt, hf, hm] at h
              simp [← h, ih zs hm]

theorem rerank_vectors_eq_some (model? : Option EmbeddingModel) (query : String)
    (documents : List Doc) (qv : List ℚ) (dvs : List (List ℚ))
    (h : rerank_vectors model? query documents = some (qv, dvs)) :
    ∃ model texts, model? = some model ∧
      mapOpt document_to_text documents = some texts ∧
      model.encode query = some qv ∧ mapOpt model.encode texts = some dvs := by
  cases model? with
  | none => simp [rerank_vectors] at h
  | some model =>
      cases ht : mapOpt document_to_text documents with
      | none => simp [rerank_vectors, ht] at h
      | some texts =>
          cases hq : model.encode query with
          | none => simp [rerank_vectors, ht, hq] at h
          | some qv2 =>
              cases hv : mapOpt model.encode texts with
              | none => simp [rerank_vectors, ht, hq, hv] at h
              | some dvs2 =>
                  simp only [rerank_vectors, ht, hq, hv, Option.some.injEq,
                    Prod.mk.injEq] at h
                  obtain ⟨h1, h2⟩ := h
                  subst h1
                  subst h2
                  exact ⟨model, texts, rfl, rfl, hq, hv⟩

theorem rerank_map_snd (qv : List ℚ) (dvs : List (List ℚ)) (documents : List Doc)
    (hlen : dvs.length = documents.length) :
    ((dvs.map fun dv => dot dv qv).zip documents).map (fun item => item.2) =
      documents := by
  apply List.map_snd_zip
  simp [hlen]

theorem semantic_rerank_perm (model? : Option EmbeddingModel) (query : String)
    (documents : List Doc) :
    List.Perm (semantic_rerank model? query documents) documents := by
  unfold semantic_rerank
  by_cases hlen : documents.length ≤ 1
  · rw [if_pos hlen]
  · rw [if_neg hlen]
    cases hrv : rerank_vectors model? query documents with
    | none => exact .refl _
    | some pr =>
        obtain ⟨qv, dvs⟩ := pr
        obtain ⟨model, texts, _, ht, _, hv⟩ :=
          rerank_vectors_eq_some _ _ _ _ _ hrv
        have h1 : texts.length = documents.length := mapOpt_length _ _ _ ht
        have h2 : dvs.length = texts.length := mapOpt_length _ _ _ hv
        have hsnd := rerank_map_snd qv dvs documents (h2.trans h1)
        have hp := (sort_desc_perm
          ((dvs.map fun dv => dot dv qv).zip documents)).map fun item => item.2
        rw [hsnd] at hp
        exact hp

/-- C10: `_semantic_rerank` always returns a permutation of its input —
the same documents, each exactly once, unmutated, on the short-circuit
path, on every failure path and on the sorting path. -/
theorem semantic_rerank_is_permutation (model? : Option EmbeddingModel)
    (query : String) (documents : List Doc) :
    List.Perm (semantic_rerank model? query documents) documents :=
  semantic_rerank_perm model? query documents

/-! ### Merge lemmas -/

theorem contains_iff_mem (l : List String) (a : String) :
    l.contains a = true ↔ a ∈ l := by
  simp [List.contains, List.elem_iff]

theorem getStrId_of_pyGet_vStr {document : Doc} {s : String}
    (h : pyGet document "_id" = .vStr s) : getStrId document = some s := by
  simp [getStrId, h]

theorem merge_loop_cons_str {document : Doc} {s : String}
    (h : pyGet document "_id" = .vStr s) (merged : List Doc) (seen : List String)
    (rest : List Doc) :
    merge_loop merged seen (document :: rest) =
      if seen.contains s then merge_loop merged seen rest
      else merge_loop (merged ++ [document]) (s :: seen) rest := by
  simp [merge_loop, h]

theorem merge_loop_cons_nonstr {document : Doc}
    (h : getStrId document = none) (merged : List Doc) (seen : List String)
    (rest : List Doc) :
    merge_loop merged seen (document :: rest) =
      if merged.any (fun m => docEq m document) then merge_loop merged seen rest
      else merge_loop (merged ++ [document]) seen rest := by
  cases hid : pyGet document "_id"
  case vStr s => simp [getStrId, hid] at h
  all_goals simp [merge_loop, hid]

theorem merge_loop_suffix (rest : List Doc) :
    ∀ (merged : List Doc) (seen : List String), ∃ suffix,
      (merge_loop merged seen rest).1 = merged ++ suffix ∧
      suffix.Pairwise (fun a b => ∀ s, getStrId a = some s → getStrId b ≠ some s) ∧
      ∀ d ∈ suffix, ∀ s, getStrId d = some s → s ∉ seen := by
  induction rest with
  | nil =>
      intro merged seen
      exact ⟨[], by simp [merge_loop], .nil, by simp⟩
  | cons document rest ih =>
      intro merged seen
      by_cases hstr : ∃ s, pyGet document "_id" = .vStr s
      · obtain ⟨s, hid⟩ := hstr
        have hgs := getStrId_of_pyGet_vStr hid
        by_cases hc : seen.contains s
        · rw [merge_loop_cons_str hid, if_pos hc]
          exact ih merged seen
        · rw [merge_loop_cons_str hid, if_neg hc]
          obtain ⟨suffix, heq, hpw, hni⟩ := ih (merged ++ [document]) (s :: seen)
          refine ⟨document :: suffix, by rw [heq]; simp, ?_, ?_⟩
          · refine List.pairwise_cons.mpr ⟨?_, hpw⟩
            intro b hb t hdt hbt
            have hts : t = s := by
              rw [hgs] at hdt
              exact (Option.some.inj hdt).symm
            subst hts
            exact hni b hb t hbt (List.mem_cons_self t seen)
          · intro d hd t hdt
            rcases List.mem_cons.mp hd with rfl | hd
            · have hts : t = s := by
                rw [hgs] at hdt
                exact (Option.some.inj hdt).symm
              subst hts
              intro hmem
              exact hc ((contains_iff_mem seen t).mpr hmem)
            · intro hmem
              exact hni d hd t hdt (List.mem_cons_of_mem s hmem)
      · have hgs : getStrId document = none := by
          unfold getStrId
          cases hid : pyGet document "_id"
          case vStr s => exact absurd ⟨s, hid⟩ hstr
          all_goals rfl
        by_cases hc : merged.any fun m => docEq m document
        · rw [merge_loop_cons_nonstr hgs, if_pos hc]
          exact ih merged seen
        · rw [merge_loop_cons_nonstr hgs, if_neg hc]
          obtain ⟨suffix, heq, hpw, hni⟩ := ih (merged ++ [document]) seen
          refine ⟨document :: suffix, by rw [heq]; simp, ?_, ?_⟩
          · refine List.pairwise_cons.mpr ⟨?_, hpw⟩
            intro b hb t hdt
            rw [hgs] at hdt
            cases hdt
          · intro d hd t hdt
            rcases List.mem_cons.mp hd with rfl | hd
            · rw [hgs] at hdt
              cases hdt
            · exact hni d hd t hdt

theorem merge_documents_eq_loop (primary l : List Doc) :
    merge_documents primary l =
      (merge_loop primary (primary.filterMap getStrId) l).1 := by
  cases l with
  | nil => simp [merge_documents, merge_loop]
  | cons f fs => simp [merge_documents]

/-! ### C7: merge keeps the primary list as a prefix and appends only
fresh identifiers -/

/-- C7: for every primary and fallback list, the merged output is the
primary list followed by a suffix of appended fallback documents; an
appended document's string identifier never equals the identifier of an
earlier appended document nor any identifier of the primary list —
i.e. no primary entry is dropped and no already-present identifier is
re-introduced. -/
theorem merge_documents_prefix_and_fresh_ids (primary fallback : List Doc) :
    ∃ suffix, merge_documents primary fallback = primary ++ suffix ∧
      suffix.Pairwise (fun a b => ∀ s, getStrId a = some s → getStrId b ≠ some s) ∧
      ∀ d ∈ suffix, ∀ s, getStrId d = some s → s ∉ primary.filterMap getStrId := by
  rw [merge_documents_eq_loop]
  obtain ⟨suffix, heq, hpw, hni⟩ :=
    merge_loop_suffix fallback primary (primary.filterMap getStrId)
  exact ⟨suffix, heq, hpw, hni⟩

/-! ### Identifier dedup invariants -/

theorem merge_loop_nodupIds (rest : List Doc) :
    ∀ (merged : List Doc) (seen : List String), NoDupIds merged →
      (∀ s, s ∈ merged.filterMap getStrId → s ∈ seen) →
      NoDupIds (merge_loop merged seen rest).1 := by
  induction rest with
  | nil =>
      intro merged seen h _
      simpa [merge_loop] using h
  | cons document rest ih =>
      intro merged seen hnd hsub
      by_cases hstr : ∃ s, pyGet document "_id" = .vStr s
      · obtain ⟨s, hid⟩ := hstr
        have hgs := getStrId_of_pyGet_vStr hid
        by_cases hc : seen.contains s
        · rw [merge_loop_cons_str hid, if_pos hc]
          exact ih merged seen hnd hsub
        · rw [merge_loop_cons_str hid, if_neg hc]
          apply ih
          · unfold NoDupIds at hnd ⊢
            rw [List.filterMap_append]
            have hone : List.filterMap getStrId [document] = [s] := by
              simp [List.filterMap_cons, hgs]
            rw [hone]
            refine List.nodup_append.mpr ⟨hnd, List.nodup_singleton s, ?_⟩
            intro a ha hb
            rcases List.mem_singleton.mp hb with rfl
            exact hc ((contains_iff_mem seen a).mpr (hsub a ha))
          · intro t ht
            rw [List.filterMap_append] at ht
            rcases List.mem_append.mp ht with ht | ht
            · exact List.mem_cons_of_mem s (hsub t ht)
            · have hone : List.filterMap getStrId [document] = [s] := by
                simp [List.filterMap_cons, hgs]
              rw [hone] at ht
              rcases List.mem_singleton.mp ht with rfl
              exact List.mem_cons_self t seen
      · have hgs : getStrId document = none := by
          unfold getStrId
          cases hid : pyGet document "_id"
          case vStr s => exact absurd ⟨s, hid⟩ hstr
          all_goals rfl
        by_cases hc : merged.any fun m => docEq m document
        · rw [merge_loop_cons_nonstr hgs, if_pos hc]
          exact ih merged seen hnd hsub
        · rw [merge_loop_cons_nonstr hgs, if_neg hc]
          apply ih
          · unfold NoDupIds at hnd ⊢
            rw [List.filterMap_append]
            have hnone : List.filterMap getStrId [document] = [] := by
              simp [List.filterMap_cons, hgs]
            rw [hnone, List.append_nil]
            exact hnd
          · intro t ht
            rw [List.filterMap_append] at ht
            have hnone : List.filterMap getStrId [document] = [] := by
              simp [List.filterMap_cons, hgs]
            rw [hnone, List.append_nil] at ht
            exact hsub t ht

theorem merge_documents_nodupIds (primary secondary : List Doc)
    (h : NoDupIds primary) : NoDupIds (merge_documents primary secondary) := by
  rw [merge_documents_eq_loop]
  exact merge_loop_nodupIds secondary primary (primary.filterMap getStrId) h
    (fun s hs => hs)

theorem nodupIds_pairwise (l : List Doc) (h : NoDupIds l) :
    l.Pairwise fun a b => ∀ s, getStrId a = some s → getStrId b ≠ some s := by
  induction l with
  | nil => exact .nil
  | cons d rest ih =>
      unfold NoDupIds at h
      cases hgs : getStrId d with
      | some s0 =>
          rw [List.filterMap_cons, hgs] at h
          rcases List.nodup_cons.mp h with ⟨hnotin, hrest⟩
          refine List.pairwise_cons.mpr ⟨?_, ih hrest⟩
          intro b hb s hds hbs
          have hs : s = s0 := by
            rw [hgs] at hds
            exact (Option.some.inj hds).symm
          subst hs
          exact hnotin (List.mem_filterMap.mpr ⟨b, hb, hbs⟩)
      | none =>
          rw [List.filterMap_cons, hgs] at h
          refine List.pairwise_cons.mpr ⟨?_, ih h⟩
          intro b hb s hds
          rw [hgs] at hds
          cases hds

theorem take_rerank_bounded_nodup (limit : Nat) (model? : Option EmbeddingModel)
    (query : String) (base : List Doc) (h : NoDupIds base) :
    ((semantic_rerank model? query base).take limit).length ≤ limit ∧
    NoDupIds ((semantic_rerank model? query base).take limit) := by
  constructor
  · rw [List.length_take]
    exact min_le_left _ _
  · have hperm := semantic_rerank_perm model? query base
    have h2 : NoDupIds (semantic_rerank model? query base) :=
      ((hperm.filterMap getStrId).symm).nodup h
    exact List.Nodup.sublist
      ((List.take_sublist limit _).filterMap getStrId) h2

/-! ### C1: bounded, identifier-deduplicated results -/

/-- C1: for every non-empty query whose primary result list carries no
duplicate string identifiers (Mongo guarantees `_id` uniqueness within
a collection), a successful `search_cases` returns at most `limit`
documents and no two of them share the same non-empty string
identifier. -/
theorem search_cases_result_bounded_nodup (limit : Nat) (store : Store)
    (model? : Option EmbeddingModel) (query : String) (docs : List Doc)
    (hq : query ≠ "")
    (hp : NoDupIds (primary_documents store query))
    (hr : (search_cases limit store model? query).result = .ok docs) :
    docs.length ≤ limit ∧
    docs.Pairwise
      (fun a b => ∀ s, s ≠ "" → getStrId a = some s → getStrId b ≠ some s) := by
  unfold search_cases at hr
  rw [if_neg hq] at hr
  unfold primary_documents at hp
  have hmain : docs.length ≤ limit ∧ NoDupIds docs := by
    cases hst : store.textSearch query with
    | fatal =>
        rw [hst] at hr
        cases hr
    | opFailure =>
        rw [hst] at hr
        simp only at hr
        obtain rfl := (Except.ok.inj hr).symm
        refine take_rerank_bounded_nodup limit model? query _ ?_
        exact merge_documents_nodupIds [] _ (by simp [NoDupIds])
    | ok raw =>
        rw [hst] at hr
        rw [hst] at hp
        simp only at hr
        by_cases hfb :
            (raw.map fun document => normalise_document (some document)).length < limit
        · rw [if_pos hfb] at hr
          simp only at hr
          obtain rfl := (Except.ok.inj hr).symm
          refine take_rerank_bounded_nodup limit model? query _ ?_
          exact merge_documents_nodupIds _ _ hp
        · rw [if_neg hfb] at hr
          simp only at hr
          obtain rfl := (Except.ok.inj hr).symm
          exact take_rerank_bounded_nodup limit model? query _ hp
  refine ⟨hmain.1, ?_⟩
  refine (nodupIds_pairwise docs hmain.2).imp ?_
  intro a b hab s _ has
  exact hab s has

/-- Witness for `search_cases_result_bounded_nodup`: the merging store
yields three distinct identifiers within the limit. -/
theorem search_cases_result_bounded_nodup_witness :
    ("q" ≠ "" ∧ NoDupIds (primary_documents mergingStore "q") ∧
      (search_cases 5 mergingStore none "q").result =
        .ok [[("_id", Value.vStr "a")], [("_id", Value.vStr "b")],
          [("_id", Value.vStr "c")]]) ∧
    (([[("_id", Value.vStr "a")], [("_id", Value.vStr "b")],
        [("_id", Value.vStr "c")]] : List Doc).length ≤ 5 ∧
      ([[("_id", Value.vStr "a")], [("_id", Value.vStr "b")],
        [("_id", Value.vStr "c")]] : List Doc).Pairwise
        (fun a b => ∀ s, s ≠ "" → getStrId a = some s → getStrId b ≠ some s)) :=
  ⟨⟨by decide, by decide, rfl⟩,
    search_cases_result_bounded_nodup 5 mergingStore none "q" _
      (by decide) (by decide) rfl⟩

/-! ### C5: success-path ordering and stability -/

theorem scores_zip_eq (model : EmbeddingModel) (qv : List ℚ) :
    ∀ (documents : List Doc) (texts : List String) (dvs : List (List ℚ)),
      mapOpt document_to_text documents = some texts →
      mapOpt model.encode texts = some dvs →
      (dvs.map fun dv => dot dv qv).zip documents =
        documents.map fun d => (simScore model qv d, d) := by
  intro documents
  induction documents with
  | nil =>
      intro texts dvs ht hv
      simp only [mapOpt, Option.some.injEq] at ht
      subst ht
      simp only [mapOpt, Option.some.injEq] at hv
      subst hv
      rfl
  | cons d ds ih =>
      intro texts dvs ht hv
      cases hf : document_to_text d with
      | none => simp [mapOpt, hf] at ht
      | some t =>
          cases hm : mapOpt document_to_text ds with
          | none => simp [mapOpt, hf, hm] at ht
          | some ts =>
              simp only [mapOpt, hf, hm, Option.some.injEq] at ht
              subst ht
              cases he : model.encode t with
              | none => simp [mapOpt, he] at hv
              | some v =>
                  cases hm2 : mapOpt model.encode ts with
                  | none => simp [mapOpt, he, hm2] at hv
                  | some vs =>
                      simp only [mapOpt, he, hm2, Option.some.injEq] at hv
                      subst hv
                      have hsim : simScore model qv d = dot v qv := by
                        simp [simScore, hf, he]
                      simp only [List.map_cons, List.zip_cons_cons, hsim,
                        ih ts vs hm hm2]

theorem filter_map_snd (sim : Doc → ℚ) (s : ℚ) :
    ∀ l : List (ℚ × Doc), (∀ p ∈ l, p.1 = sim p.2) →
      (l.map fun p => p.2).filter (fun d => sim d == s) =
        (l.filter fun p => p.1 == s).map fun p => p.2 := by
  intro l
  induction l with
  | nil => intro _; rfl
  | cons p ps ih =>
      intro h
      have hp : p.1 = sim p.2 := h p (List.mem_cons_self p ps)
      have hrest : ∀ q ∈ ps, q.1 = sim q.2 :=
        fun q hq => h q (List.mem_cons_of_mem p hq)
      simp only [List.map_cons, List.filter_cons]
      by_cases hps : sim p.2 == s
      · have hb : (p.1 == s) = true := by rw [hp]; exact hps
        simp [hps, hb, ih hrest]
      · have hb : (p.1 == s) = false := by
          rw [hp]
          exact Bool.eq_false_iff.mpr hps
        simp [hps, hb, ih hrest]

/-- C5: when the embedding of the query and of every document succeeds,
`_semantic_rerank` orders the documents by descending similarity score
(dot product of the document vector with the query vector), and any two
documents with equal scores keep the relative order they had in the
input (Python's `sorted` is stable): for every score value, the
sub-list of output documents with that score equals the corresponding
sub-list of the input. -/
theorem semantic_rerank_sorted_stable (model : EmbeddingModel) (query : String)
    (documents : List Doc) (texts : List String) (qv : List ℚ)
    (dvs : List (List ℚ))
    (ht : mapOpt document_to_text documents = some texts)
    (hq : model.encode query = some qv)
    (hv : mapOpt model.encode texts = some dvs) :
    (semantic_rerank (some model) query documents).Pairwise
        (fun a b => simScore model qv b ≤ simScore model qv a) ∧
    ∀ s : ℚ, (semantic_rerank (some model) query documents).filter
          (fun d => simScore model qv d == s) =
        documents.filter fun d => simScore model qv d == s := by
  by_cases hlen : documents.length ≤ 1
  · have hid : semantic_rerank (some model) query documents = documents := by
      unfold semantic_rerank
      rw [if_pos hlen]
    rw [hid]
    refine ⟨?_, fun s => rfl⟩
    match documents with
    | [] => exact .nil
    | [d] => exact List.pairwise_singleton _ d
  · have hrv : rerank_vectors (some model) query documents = some (qv, dvs) := by
      simp [rerank_vectors, ht, hq, hv]
    have hout : semantic_rerank (some model) query documents =
        (sort_desc ((dvs.map fun dv => dot dv qv).zip documents)).map
          fun item => item.2 := by
      unfold semantic_rerank
      rw [if_neg hlen, hrv]
    rw [hout, scores_zip_eq model qv documents texts dvs ht hv]
    have hprop : ∀ p ∈ (documents.map fun d => (simScore model qv d, d)),
        p.1 = simScore model qv p.2 := by
      intro p hp
      obtain ⟨d, _, rfl⟩ := List.mem_map.mp hp
      rfl
    have hprop2 : ∀ p ∈ sort_desc (documents.map fun d => (simScore model qv d, d)),
        p.1 = simScore model qv p.2 := fun p hp =>
      hprop p ((sort_desc_perm _).mem_iff.mp hp)
    constructor
    · rw [List.pairwise_map]
      refine List.Pairwise.imp_of_mem ?_ (sort_desc_sorted _)
      intro a b ha hb hle
      rw [← hprop2 a ha, ← hprop2 b hb]
      exact hle
    · intro s
      rw [filter_map_snd _ s _ hprop2, sort_desc_filter,
        ← filter_map_snd _ s _ hprop]
      congr 1
      simp [Function.comp_def]

/-- Witness for `semantic_rerank_sorted_stable`: two documents whose
stub similarities are 2 and 3; the pipeline data are fully concrete. -/
theorem semantic_rerank_sorted_stable_witness :
    (mapOpt document_to_text [[("case_title", Value.vStr "A")],
        [("case_title", Value.vStr "B")]] = some ["A", "B"] ∧
      stubModel.encode "q" = some [1] ∧
      mapOpt stubModel.encode ["A", "B"] = some [[2], [3]]) ∧
    ((semantic_rerank (some stubModel) "q" [[("case_title", Value.vStr "A")],
          [("case_title", Value.vStr "B")]]).Pairwise
        (fun a b => simScore stubModel [1] b ≤ simScore stubModel [1] a) ∧
      ∀ s : ℚ, (semantic_rerank (some stubModel) "q"
            [[("case_title", Value.vStr "A")],
              [("case_title", Value.vStr "B")]]).filter
            (fun d => simScore stubModel [1] d == s) =
          [[("case_title", Value.vStr "A")],
            [("case_title", Value.vStr "B")]].filter
            fun d => simScore stubModel [1] d == s) :=
  ⟨⟨rfl, rfl, rfl⟩,
    semantic_rerank_sorted_stable stubModel "q" _ _ _ _ rfl rfl rfl⟩

/-! ### C8: dedup policy in the merge -/

theorem merge_loop_append (l1 l2 : List Doc) :
    ∀ (merged : List Doc) (seen : List String),
      merge_loop merged seen (l1 ++ l2) =
        merge_loop (merge_loop merged seen l1).1 (merge_loop merged seen l1).2 l2 := by
  induction l1 with
  | nil => intro merged seen; rfl
  | cons document rest ih =>
      intro merged seen
      by_cases hstr : ∃ s, pyGet document "_id" = .vStr s
      · obtain ⟨s, hid⟩ := hstr
        rw [List.cons_append, merge_loop_cons_str hid, merge_loop_cons_str hid]
        by_cases hc : seen.contains s
        · rw [if_pos hc, if_pos hc, ih]
        · rw [if_neg hc, if_neg hc, ih]
      · have hgs : getStrId document = none := by
          unfold getStrId
          cases hid : pyGet document "_id"
          case vStr s => exact absurd ⟨s, hid⟩ hstr
          all_goals rfl
        rw [List.cons_append, merge_loop_cons_nonstr hgs, merge_loop_cons_nonstr hgs]
        by_cases hc : merged.any fun m => docEq m document
        · rw [if_pos hc, if_pos hc, ih]
        · rw [if_neg hc, if_neg hc, ih]

theorem merge_loop_seen_iff (rest : List Doc) :
    ∀ (merged : List Doc) (seen : List String),
      (∀ t, t ∈ seen ↔ t ∈ merged.filterMap getStrId) →
      ∀ t, t ∈ (merge_loop merged seen rest).2 ↔
        t ∈ (merge_loop merged seen rest).1.filterMap getStrId := by
  induction rest with
  | nil =>
      intro merged seen h t
      simpa [merge_loop] using h t
  | cons document rest ih =>
      intro merged seen h t
      by_cases hstr : ∃ s, pyGet document "_id" = .vStr s
      · obtain ⟨s, hid⟩ := hstr
        have hgs := getStrId_of_pyGet_vStr hid
        rw [merge_loop_cons_str hid]
        by_cases hc : seen.contains s
        · rw [if_pos hc]
          exact ih merged seen h t
        · rw [if_neg hc]
          refine ih _ _ ?_ t
          intro u
          rw [List.filterMap_append, List.mem_append]
          have hone : List.filterMap getStrId [document] = [s] := by
            simp [List.filterMap_cons, hgs]
          rw [hone]
          simp only [List.mem_cons, List.mem_append, List.not_mem_nil,
            or_false, h u]
          tauto
      · have hgs : getStrId document = none := by
          unfold getStrId
          cases hid : pyGet document "_id"
          case vStr s => exact absurd ⟨s, hid⟩ hstr
          all_goals rfl
        rw [merge_loop_cons_nonstr hgs]
        by_cases hc : merged.any fun m => docEq m document
        · rw [if_pos hc]
          exact ih merged seen h t
        · rw [if_neg hc]
          refine ih _ _ ?_ t
          intro u
          rw [List.filterMap_append, List.mem_append]
          have hnone : List.filterMap getStrId [document] = [] := by
            simp [List.filterMap_cons, hgs]
          rw [hnone]
          simp [h u]

/-- C8 (counterexample): identifier-based deduplication is *not*
restricted to non-empty string identifiers.  The guard is
`isinstance(identifier, str)`, which the empty string satisfies: a
fallback document whose `_id` is `""` is dropped because the primary
list already contains a document with `_id` equal to `""`, even though
the two documents are structurally different — so it was deduplicated
by identifier, which the claim forbids for an empty-string identifier. -/
theorem merge_documents_empty_id_counterexample :
    merge_documents [[("_id", Value.vStr "")]]
        [[("_id", Value.vStr ""), ("extra", Value.vInt 1)]] =
      [[("_id", Value.vStr "")]] ∧
    docEq [("_id", Value.vStr "")]
        [("_id", Value.vStr ""), ("extra", Value.vInt 1)] = false := by
  constructor
  · rfl
  · rfl

/-- C8 (amended): in the merge's fallback pass, identifier-based
deduplication applies to every document whose identifier is a string —
the empty string included: such a document is appended exactly when its
identifier has not been seen among the string identifiers of the output
accumulated so far.  A fallback document with a *missing* identifier is
never deduplicated by identifier: it is appended exactly when no
structurally-equal document (field-for-field equality) is already
present in the accumulated output. -/
theorem merge_documents_dedup_policy (primary fallback : List Doc) (k : Nat)
    (hk : k < fallback.length) :
    (lookupField (fallback.get ⟨k, hk⟩) "_id" = none →
        merge_documents primary (fallback.take (k+1)) =
          if (merge_documents primary (fallback.take k)).any
                (fun m => docEq m (fallback.get ⟨k, hk⟩))
          then merge_documents primary (fallback.take k)
          else merge_documents primary (fallback.take k) ++
            [fallback.get ⟨k, hk⟩]) ∧
    (∀ s, pyGet (fallback.get ⟨k, hk⟩) "_id" = .vStr s →
        merge_documents primary (fallback.take (k+1)) =
          if ((merge_documents primary (fallback.take k)).filterMap
                getStrId).contains s
          then merge_documents primary (fallback.take k)
          else merge_documents primary (fallback.take k) ++
            [fallback.get ⟨k, hk⟩]) := by
  have htake : fallback.take (k+1) = fallback.take k ++ [fallback.get ⟨k, hk⟩] := by
    rw [List.take_succ, List.getElem?_eq_getElem hk]
    simp
  have hM := merge_documents_eq_loop primary (fallback.take k)
  have hseen := merge_loop_seen_iff (fallback.take k) primary
    (primary.filterMap getStrId) (fun t => Iff.rfl)
  constructor
  · intro hmiss
    have hgs : getStrId (fallback.get ⟨k, hk⟩) = none := by
      unfold getStrId pyGet
      rw [hmiss]
      rfl
    rw [merge_documents_eq_loop primary (fallback.take (k+1)), htake,
      merge_loop_append (fallback.take k) [fallback.get ⟨k, hk⟩],
      merge_loop_cons_nonstr hgs]
    by_cases hc : (merge_loop primary (primary.filterMap getStrId)
        (fallback.take k)).1.any fun m => docEq m (fallback.get ⟨k, hk⟩)
    · rw [if_pos hc, if_pos (by rw [hM]; exact hc)]
      simp [merge_loop, hM]
    · rw [if_neg hc, if_neg (by rw [hM]; exact hc)]
      simp [merge_loop, hM]
  · intro s hs
    rw [merge_documents_eq_loop primary (fallback.take (k+1)), htake,
      merge_loop_append (fallback.take k) [fallback.get ⟨k, hk⟩],
      merge_loop_cons_str hs]
    have hcond : (merge_loop primary (primary.filterMap getStrId)
          (fallback.take k)).2.contains s =
        ((merge_documents primary (fallback.take k)).filterMap
          getStrId).contains s := by
      rw [hM]
      refine Bool.eq_iff_iff.mpr ?_
      rw [contains_iff_mem, contains_iff_mem]
      exact hseen s
    rw [hcond]
    by_cases hc : ((merge_documents primary (fallback.take k)).filterMap
        getStrId).contains s
    · rw [if_pos hc, if_pos hc]
      simp [merge_loop, hM]
    · rw [if_neg hc, if_neg hc]
      simp [merge_loop, hM]

/-- Witness for `merge_documents_dedup_policy`: the second fallback
document has no identifier and is appended because it is structurally
new. -/
theorem merge_documents_dedup_policy_witness :
    (1 < ([[("_id", Value.vStr "p"), ("a", Value.vInt 1)],
        [("b", Value.vInt 2)]] : List Doc).length) ∧
    ((lookupField (([[("_id", Value.vStr "p"), ("a", Value.vInt 1)],
          [("b", Value.vInt 2)]] : List Doc).get ⟨1, by decide⟩) "_id" = none →
        merge_documents [[("_id", Value.vStr "p")]]
            (([[("_id", Value.vStr "p"), ("a", Value.vInt 1)],
              [("b", Value.vInt 2)]] : List Doc).take 2) =
          if (merge_documents [[("_id", Value.vStr "p")]]
                (([[("_id", Value.vStr "p"), ("a", Value.vInt 1)],
                  [("b", Value.vInt 2)]] : List Doc).take 1)).any
                (fun m => docEq m (([[("_id", Value.vStr "p"), ("a", Value.vInt 1)],
                  [("b", Value.vInt 2)]] : List Doc).get ⟨1, by decide⟩))
          then merge_documents [[("_id", Value.vStr "p")]]
                (([[("_id", Value.vStr "p"), ("a", Value.vInt 1)],
                  [("b", Value.vInt 2)]] : List Doc).take 1)
          else merge_documents [[("_id", Value.vStr "p")]]
                (([[("_id", Value.vStr "p"), ("a", Value.vInt 1)],
                  [("b", Value.vInt 2)]] : List Doc).take 1) ++
            [([[("_id", Value.vStr "p"), ("a", Value.vInt 1)],
              [("b", Value.vInt 2)]] : List Doc).get ⟨1, by decide⟩]) ∧
      (∀ s, pyGet (([[("_id", Value.vStr "p"), ("a", Value.vInt 1)],
            [("b", Value.vInt 2)]] : List Doc).get ⟨1, by decide⟩) "_id" =
            .vStr s →
        merge_documents [[("_id", Value.vStr "p")]]
            (([[("_id", Value.vStr "p"), ("a", Value.vInt 1)],
              [("b", Value.vInt 2)]] : List Doc).take 2) =
          if (merge_documents [[("_id", Value.vStr "p")]]
                (([[("_id", Value.vStr "p"), ("a", Value.vInt 1)],
                  [("b", Value.vInt 2)]] : List Doc).take 1)).filterMap
                getStrId |>.contains s
          then merge_documents [[("_id", Value.vStr "p")]]
                (([[("_id", Value.vStr "p"), ("a", Value.vInt 1)],
                  [("b", Value.vInt 2)]] : List Doc).take 1)
          else merge_documents [[("_id", Value.vStr "p")]]
                (([[("_id", Value.vStr "p"), ("a", Value.vInt 1)],
                  [("b", Value.vInt 2)]] : List Doc).take 1) ++
            [([[("_id", Value.vStr "p"), ("a", Value.vInt 1)],
              [("b", Value.vInt 2)]] : List Doc).get ⟨1, by decide⟩])) :=
  ⟨by decide,
    merge_documents_dedup_policy [[("_id", Value.vStr "p")]]
      [[("_id", Value.vStr "p"), ("a", Value.vInt 1)], [("b", Value.vInt 2)]]
      1 (by decide)⟩

end Db
